import Mathlib

/-!
Verification development for the cert_human repository.

The certificate data model and extraction layer of the repository is not
present under src/ (only its test suite, src/tests/test_cert_human.py, and the
thin CLI, src/cert_human_cli.py, are).  The library operations are therefore
modelled from the specification (spec.md), with the concrete expected values
of the repository's own tests used as ground truth.  Text is embedded as
List Char, byte strings as List Nat (each entry < 256), and fallible
operations return Except.
-/

/-- Modelled from the spec: the PEM begin boundary marker, a literal dashed
string (spec section 6, External Interfaces). -/
def beginMarker : List Char := "-----BEGIN CERTIFICATE-----".data

/-- Modelled from the spec: the PEM end boundary marker. -/
def endMarker : List Char := "-----END CERTIFICATE-----".data

/-- Boolean test that the pattern `m` is a prefix of the text `l`. -/
def startsWithL : List Char → List Char → Bool
  | [], _ => true
  | _ :: _, [] => false
  | a :: as, b :: bs => a == b && startsWithL as bs

/-- Boolean test that the pattern `m` is a suffix of the text `l`. -/
def endsWithL (m l : List Char) : Bool :=
  startsWithL m.reverse l.reverse

/-- Split the text at the leftmost occurrence of the marker `m`, returning the
text before the occurrence and the text after it. -/
def splitOnFirst (m : List Char) : List Char → Option (List Char × List Char)
  | [] => none
  | c :: rest =>
    if startsWithL m (c :: rest) then some ([], (c :: rest).drop m.length)
    else
      match splitOnFirst m rest with
      | some (a, b) => some (c :: a, b)
      | none => none

/-- Modelled from the spec: `find_certs` (spec section 4.1) scans input text
for all substrings beginning with the begin boundary marker and ending with
the matching end marker, returning matches in order of appearance.  The
recursion is driven by a fuel argument; `find_certs` supplies the text length,
which always suffices since every match consumes at least one character. -/
def find_certsAux : Nat → List Char → List (List Char)
  | 0, _ => []
  | fuel + 1, l =>
    match splitOnFirst beginMarker l with
    | none => []
    | some (_, r1) =>
      match splitOnFirst endMarker r1 with
      | none => []
      | some (mid, r2) => (beginMarker ++ mid ++ endMarker) :: find_certsAux fuel r2

/-- Modelled from the spec: `find_certs(text)`, the PEM block scanner. -/
def find_certs (l : List Char) : List (List Char) :=
  find_certsAux l.length l

/-- A piece of text that contains no dash character.  Base64 certificate
bodies and the junk text of the repository's `test_find_certs` fixture are
both of this form. -/
def dashFree (l : List Char) : Prop := ∀ c ∈ l, c ≠ '-'

instance (l : List Char) : Decidable (dashFree l) := by
  unfold dashFree; infer_instance

/-- Text consisting of `n` PEM blocks: leading junk `j0`, then for each pair
`(mid, junk)` a block `beginMarker ++ mid ++ endMarker` followed by `junk`. -/
def assemble (j0 : List Char) : List (List Char × List Char) → List Char
  | [] => j0
  | p :: rest => j0 ++ (beginMarker ++ (p.1 ++ (endMarker ++ assemble p.2 rest)))

/-- Modelled from the spec: the error kinds of section 7, one constructor per
failure mode, each carrying a human-readable message.  The repository's tests
observe all of them as `cert_human.CertHumanError`. -/
inductive CertHumanError
  | decodeError (msg : String)
  | formatError (msg : String)
  | typeError (msg : String)
  | connectionError (msg : String)
  | timeoutError (msg : String)
  | protocolError (msg : String)
  | stateError (msg : String)
  | fileConflictError (msg : String)
  | fileAccessError (msg : String)
deriving DecidableEq

/-- The message carried by a typed failure. -/
def CertHumanError.message : CertHumanError → String
  | .decodeError m => m
  | .formatError m => m
  | .typeError m => m
  | .connectionError m => m
  | .timeoutError m => m
  | .protocolError m => m
  | .stateError m => m
  | .fileConflictError m => m
  | .fileAccessError m => m

/-- The serial number as presented by the external parsing library: either a
plain integer or a raw byte string (spec section 1 places the ASN.1 parsing
primitives out of scope; the repository's tests observe both shapes). -/
inductive SerialVal
  | int (n : Nat)
  | bytes (bs : List Nat)
deriving DecidableEq

/-- Modelled from the spec: the structured fields the external certificate
library exposes on a parsed certificate object (spec section 1): the subject
and issuer distinguished-name components in component order, and the serial. -/
structure CertView where
  subject : List (String × String)
  issuer : List (String × String)
  serial : SerialVal
deriving DecidableEq

/-- Modelled from the spec: a parsed certificate object, wrapping the raw DER
bytes it was parsed from together with the fields the external library
derives from them (spec section 3: `pem`/`der` are re-derivable raw
encodings, never mutated). -/
structure X509 where
  der : List Nat
  view : CertView
deriving DecidableEq

/-- Well-formed raw DER bytes: nonempty, every entry an octet. -/
def wfDer (bs : List Nat) : Prop := bs ≠ [] ∧ ∀ b ∈ bs, b < 256

instance (bs : List Nat) : Decidable (wfDer bs) := by
  unfold wfDer; infer_instance

/-- The base64 alphabet in index order. -/
def b64alphabet : List Char :=
  "ABCDEFGHIJKLMNOPQRSTUVWXYZabcdefghijklmnopqrstuvwxyz0123456789+/".data

/-- The base64 character for a 6-bit value. -/
def b64char (n : Nat) : Char := b64alphabet.getD n 'A'

/-- The 6-bit value of a base64 character. -/
def b64val (c : Char) : Option Nat := b64alphabet.findIdx? (fun a => a == c)

/-- Base64-encode a byte string, with `=` padding for a 1- or 2-byte tail. -/
def b64encode : List Nat → List Char
  | [] => []
  | [b1] => [b64char (b1 / 4), b64char (b1 % 4 * 16), '=', '=']
  | [b1, b2] =>
    [b64char (b1 / 4), b64char (b1 % 4 * 16 + b2 / 16), b64char (b2 % 16 * 4), '=']
  | b1 :: b2 :: b3 :: rest =>
    b64char (b1 / 4) :: b64char (b1 % 4 * 16 + b2 / 16) ::
      b64char (b2 % 16 * 4 + b3 / 64) :: b64char (b3 % 64) :: b64encode rest

/-- Base64-decode a character string, four characters at a time, with `=`
padding recognized in the final group. -/
def b64decode : List Char → Option (List Nat)
  | [] => some []
  | a :: b :: c :: d :: rest =>
    (b64val a).bind fun va =>
    (b64val b).bind fun vb =>
    if c = '=' then
      if d = '=' ∧ rest = [] then some [va * 4 + vb / 16] else none
    else
      (b64val c).bind fun vc =>
      if d = '=' then
        if rest = [] then some [va * 4 + vb / 16, vb % 16 * 16 + vc / 4] else none
      else
        (b64val d).bind fun vd =>
        (b64decode rest).bind fun tl =>
        some ((va * 4 + vb / 16) :: (vb % 16 * 16 + vc / 4) :: (vc % 4 * 64 + vd) :: tl)
  | _ => none

/-- Split a character list into chunks of `k` characters (fuel-driven; the
callers supply the list length as fuel). -/
def chunksAux : Nat → Nat → List Char → List (List Char)
  | 0, _, _ => []
  | _ + 1, _, [] => []
  | fuel + 1, k, c :: rest => (c :: rest).take k :: chunksAux fuel k ((c :: rest).drop k)

/-- Split a character list into chunks of `k` characters. -/
def chunksOf (k : Nat) (l : List Char) : List (List Char) :=
  chunksAux l.length k l

/-- The line-wrapped body of a PEM block: the base64 text broken into
64-character lines, each terminated by a newline. -/
def pemLines (e : List Char) : List Char :=
  ((chunksOf 64 e).map (fun c => c ++ ['\n'])).flatten

/-- Modelled from the spec: the canonical PEM text of raw DER bytes — begin
boundary line, base64 body wrapped at 64 columns, end boundary line (spec
sections 4.1 and 6). -/
def x509_to_pem_der (der : List Nat) : List Char :=
  beginMarker ++ ('\n' :: pemLines (b64encode der)) ++ endMarker ++ ['\n']

/-- Modelled from the spec: `certificateToPem` — regenerate the PEM encoding
of a parsed certificate object from its raw bytes. -/
def x509_to_pem (x : X509) : List Char := x509_to_pem_der x.der

/-- Modelled from the spec: `certificateToDer` — the raw DER bytes of a
parsed certificate object. -/
def x509_to_der (x : X509) : List Nat := x.der

/-- Drop newline characters (used when reading the body of a PEM block). -/
def nlFilter (l : List Char) : List Char := l.filter (fun c => !(c == '\n'))

/-- The text between the boundary markers of a matched PEM block. -/
def stripBlock (block : List Char) : List Char :=
  (block.drop beginMarker.length).take
    ((block.drop beginMarker.length).length - endMarker.length)

/-- Modelled from the spec: `derToCertificate` — parse raw DER bytes into a
certificate object, failing with a decode error when the bytes are not valid
DER.  The external ASN.1 parser is modelled by the field extractor `ep`. -/
def der_to_x509 (ep : List Nat → CertView) (bs : List Nat) : Except CertHumanError X509 :=
  if !bs.isEmpty && bs.all (fun b => decide (b < 256)) then .ok ⟨bs, ep bs⟩
  else .error (.decodeError "Invalid DER bytes")

/-- Modelled from the spec: `pemToCertificate` — extract the first PEM block
from the text, base64-decode its body, and parse the resulting DER bytes.
Fails with a decode error when no block is found or the body is not valid
base64 (spec section 4.1). -/
def pem_to_x509 (ep : List Nat → CertView) (text : List Char) : Except CertHumanError X509 :=
  match find_certs text with
  | [] => .error (.decodeError "No PEM certificate found in text")
  | block :: _ =>
    match b64decode (nlFilter (stripBlock block)) with
    | some der => .ok ⟨der, ep der⟩
    | none => .error (.decodeError "Invalid base64 in PEM block")

/-- A valid PEM certificate text: the canonical PEM encoding of some
well-formed DER byte string. -/
def validPem (p : List Char) : Prop := ∃ der, wfDer der ∧ p = x509_to_pem_der der

/-- The uppercase hexadecimal digit for a 4-bit value. -/
def hexDigit (n : Nat) : Char := "0123456789ABCDEF".data.getD n '0'

/-- Most-significant-first hex digits of `n` (empty for 0); fuel-driven. -/
def hexGo : Nat → Nat → List Char
  | 0, _ => []
  | fuel + 1, n => if n = 0 then [] else hexGo fuel (n / 16) ++ [hexDigit (n % 16)]

/-- The natural uppercase hex form of a nonnegative integer. -/
def toHex (n : Nat) : List Char := if n = 0 then ['0'] else hexGo n n

/-- Direct uppercase hex encoding of a byte string, two digits per byte,
preserving leading zero bytes. -/
def bytesHex (bs : List Nat) : List Char :=
  (bs.map (fun b => [hexDigit (b / 16), hexDigit (b % 16)])).flatten

/-- The two input shapes accepted by `hexify`: an integer or a byte string. -/
inductive HexInput
  | int (n : Nat)
  | bytes (bs : List Nat)

/-- Modelled from the spec: `hexify(obj, zerofill, space)` (spec section 4.2).
Integers become uppercase hex, left-padded with one zero to even length when
`zerofill` is set and the natural length is odd; byte strings are hex-encoded
directly; when `space` is set, a single space separates each byte pair. -/
def hexify (obj : HexInput) (zerofill : Bool) (space : Bool) : List Char :=
  let hexed := match obj with
    | HexInput.int n => toHex n
    | HexInput.bytes bs => bytesHex bs
  let hexed2 := if zerofill && (hexed.length % 2 == 1) then '0' :: hexed else hexed
  if space then List.intercalate [' '] (chunksOf 2 hexed2) else hexed2

/-- Membership in the uppercase hex digit alphabet. -/
def isHexUpper (c : Char) : Bool := decide (c ∈ "0123456789ABCDEF".data)

/-- Assemble `scheme://hostname:port` after the scheme has been determined:
a `:port` suffix of the remaining host text overrides the port argument. -/
def buildUrlRest (scheme rest : List Char) (port : Nat) : List Char :=
  match splitOnFirst [':'] rest with
  | some (hname, pstr) => scheme ++ "://".data ++ hname ++ [':'] ++ pstr
  | none => scheme ++ "://".data ++ rest ++ [':'] ++ (Nat.repr port).data

/-- Modelled from the spec: `build_url(host, port)` (spec section 4.5) — a
scheme embedded in the host via `://` is reused (default `https`); a `:port`
suffix of the host overrides the port argument; the result is always
`scheme://hostname:port`. -/
def build_url (host : List Char) (port : Nat) : List Char :=
  match splitOnFirst "://".data host with
  | some (s, r) => buildUrlRest s r port
  | none => buildUrlRest "https".data host port

/-- Split a word list on underscores. -/
def splitUnderscore : List Char → List (List Char)
  | [] => [[]]
  | c :: rest =>
    let r := splitUnderscore rest
    if c = '_' then [] :: r
    else
      match r with
      | [] => [[c]]
      | w :: ws => (c :: w) :: ws

/-- Capitalize the first character of a word. -/
def titleWord : List Char → List Char
  | [] => []
  | c :: rest => c.toUpper :: rest

/-- Render an attribute name such as `common_name` as `Common Name`. -/
def prettyName (s : String) : List Char :=
  List.intercalate [' '] ((splitUnderscore s.data).map titleWord)

/-- Render distinguished-name components as `Common Name: example.com, ...`. -/
def renderDN (dn : List (String × String)) : List Char :=
  List.intercalate ", ".data (dn.map (fun p => prettyName p.1 ++ (": ".data ++ p.2.data)))

/-- Modelled from the spec: the tri-state self-signed verdict (spec section 3);
`yes`/`no` would require cryptographic verification, which is out of scope. -/
inductive SelfSigned
  | yes
  | no
  | maybe
deriving DecidableEq

/-- A serial number as exposed to callers: a big integer or a hex string. -/
inductive SerialOut
  | int (n : Nat)
  | str (s : List Char)
deriving DecidableEq

/-- Modelled from the spec: the Single-Certificate Model (`CertStore`),
wrapping one parsed certificate object (spec section 3). -/
structure CertStore where
  x509 : X509
deriving DecidableEq

/-- The subject distinguished-name components of the wrapped certificate. -/
def CertStore.subject (c : CertStore) : List (String × String) := c.x509.view.subject

/-- The issuer distinguished-name components of the wrapped certificate. -/
def CertStore.issuer (c : CertStore) : List (String × String) := c.x509.view.issuer

/-- The PEM encoding, regenerated from the wrapped raw bytes. -/
def CertStore.pem (c : CertStore) : List Char := x509_to_pem c.x509

/-- The raw DER bytes of the wrapped certificate. -/
def CertStore.der (c : CertStore) : List Nat := c.x509.der

/-- Modelled from the spec: `is_self_issued` — true when issuer equals
subject (spec section 3). -/
def CertStore.is_self_issued (c : CertStore) : Bool :=
  decide (c.x509.view.issuer = c.x509.view.subject)

/-- Modelled from the spec: `is_self_signed` — `maybe` when self-issued,
because signature-against-own-key verification is never performed here; `no`
otherwise (spec section 3). -/
def CertStore.is_self_signed (c : CertStore) : SelfSigned :=
  if CertStore.is_self_issued c then SelfSigned.maybe else SelfSigned.no

/-- Modelled from the spec and the repository's tests (`test_serial_number`):
the serial number, as a big integer when the external library presents an
integer, and as the uppercase hex encoding when it presents raw bytes. -/
def CertStore.serial_number (c : CertStore) : SerialOut :=
  match c.x509.view.serial with
  | SerialVal.int n => SerialOut.int n
  | SerialVal.bytes bs => SerialOut.str (hexify (HexInput.bytes bs) true false)

/-- Modelled from the spec and the repository's tests (`test_serial_number_str`):
the space-separated uppercase hex form when the serial is presented as raw
bytes, and the integer unchanged otherwise. -/
def CertStore.serial_number_str (c : CertStore) : SerialOut :=
  match c.x509.view.serial with
  | SerialVal.int n => SerialOut.int n
  | SerialVal.bytes bs => SerialOut.str (hexify (HexInput.bytes bs) true true)

/-- Text form of an exposed serial number. -/
def serialText : SerialOut → List Char
  | SerialOut.int n => (Nat.repr n).data
  | SerialOut.str s => s

/-- Modelled from the spec: the info section of the human-readable dump
(subject, issuer, serial; spec section 4.3). -/
def CertStore.dump_str_info (c : CertStore) : List Char :=
  "Subject: ".data ++ renderDN (CertStore.subject c) ++ ['\n'] ++
  ("Issuer: ".data ++ renderDN (CertStore.issuer c) ++ ['\n'] ++
   ("Serial: ".data ++ serialText (CertStore.serial_number c)))

/-- Modelled from the spec: the multi-line human text block of one
certificate (spec section 4.3; only the claim-relevant info section is
modelled). -/
def CertStore.dump_str (c : CertStore) : List Char :=
  CertStore.dump_str_info c ++ ['\n']

/-- Modelled from the spec: the serialized JSON text of one certificate's
JSON-friendly dump (spec section 4.3). -/
def CertStore.dump_json (c : CertStore) : List Char :=
  "\x7b\"subject\": \"".data ++ renderDN (CertStore.subject c) ++
  ("\", \"issuer\": \"".data ++ renderDN (CertStore.issuer c) ++
   ("\", \"serial_number\": \"".data ++ serialText (CertStore.serial_number c) ++
    "\"\x7d".data))

/-- Modelled from the spec: the Certificate-Chain Model (`CertChainStore`),
an ordered sequence of `CertStore` (spec section 3). -/
structure CertChainStore where
  certs : List CertStore
deriving DecidableEq

/-- The input shapes `CertChainStore.append` normalizes: a parsed certificate
object, a `CertStore`, or PEM text (spec sections 3 and 4.4). -/
inductive ChainInput
  | x509Obj (x : X509)
  | storeObj (s : CertStore)
  | pemText (p : List Char)

/-- Modelled from the spec: `append` normalizes its input to a `CertStore`
and appends it, preserving insertion order (spec section 4.4). -/
def CertChainStore.append (ep : List Nat → CertView) (chain : CertChainStore) :
    ChainInput → Except CertHumanError CertChainStore
  | ChainInput.x509Obj x => .ok ⟨chain.certs ++ [⟨x⟩]⟩
  | ChainInput.storeObj s => .ok ⟨chain.certs ++ [s]⟩
  | ChainInput.pemText p =>
    match pem_to_x509 ep p with
    | .ok x => .ok ⟨chain.certs ++ [⟨x⟩]⟩
    | .error e => .error e

/-- The `CertStore #<n>` header line prefixed to each member's text block in
the chain dump (1-indexed); the chain dump begins each block on a fresh
line, so the header is the second line of the dump. -/
def chainHeader (n : Nat) : List Char :=
  '\n' :: ("CertStore #".data ++ (Nat.repr n).data ++ ['\n'])

/-- Modelled from the spec: the chain's `dump_str` concatenates each member's
text block, each prefixed with its 1-indexed `CertStore #<n>` header line
(spec section 4.4). -/
def CertChainStore.dump_str (ch : CertChainStore) : List Char :=
  (ch.certs.enum.map (fun p => chainHeader (p.1 + 1) ++ CertStore.dump_str p.2)).flatten

/-- Modelled from the spec: the chain's `dump_json`, a JSON list of the
members' JSON dumps (spec section 4.4). -/
def CertChainStore.dump_json (ch : CertChainStore) : List Char :=
  '[' :: (List.intercalate ", ".data (ch.certs.map CertStore.dump_json) ++ [']'])

/-- Modelled from the spec: an HTTP response object; when the urllib3 patch
is active it carries the peer certificate and chain (spec section 6). -/
structure Response where
  peer_cert : Option X509
  peer_cert_chain : Option (List X509)

/-- Modelled from the spec: `from_response` requires the response to carry
the patch-populated peer certificate; fails with a state error naming the
inactive patch otherwise (spec section 4.5). -/
def CertStore.from_response (r : Response) : Except CertHumanError CertStore :=
  match r.peer_cert with
  | some x => .ok ⟨x⟩
  | none => .error (.stateError "Response has no peer_cert; urllib3 patch is not active")

/-- Modelled from the spec: `check_urllib3_patch` fails with a state error
when queried while the process-wide patch is inactive (spec section 6). -/
def check_urllib3_patch (active : Bool) : Except CertHumanError Unit :=
  if active then .ok () else .error (.stateError "urllib3 patch is not active")

/-- Modelled from the spec: `write_file` (the write adapter, spec sections
4.5 and 7), as a function of the pre-state of the filesystem: fails with a
conflict error when the target exists and overwrite is not set, and with an
access error when the parent directory is missing and may not be created. -/
def write_file (parentExists fileExists mkparent overwrite : Bool) (text : List Char) :
    Except CertHumanError (List Char) :=
  if fileExists && !overwrite then
    .error (.fileConflictError "File already exists and overwrite is not enabled")
  else if !parentExists && !mkparent then
    .error (.fileAccessError "Parent directory does not exist and mkparent is not enabled")
  else .ok text

/-- Modelled from the spec: the single-certificate `from_path` adapter,
applied to the file's text content: requires exactly one PEM block, failing
with a format error on any other count (spec section 4.5). -/
def CertStore.from_path (ep : List Nat → CertView) (content : List Char) :
    Except CertHumanError CertStore :=
  if (find_certs content).length = 1 then
    match pem_to_x509 ep content with
    | .ok x => .ok ⟨x⟩
    | .error e => .error e
  else .error (.formatError "Supplied content must contain exactly one PEM certificate")

/-- The runtime input shapes inspected by `from_auto`; `otherObj` stands for
any value of unrecognized shape (such as Python's `None`). -/
inductive AutoInput
  | pemText (s : List Char)
  | derBytes (bs : List Nat)
  | x509Obj (x : X509)
  | responseObj (r : Response)
  | storeObj (c : CertStore)
  | otherObj

/-- Modelled from the spec: `from_auto` inspects the runtime shape of its
input and dispatches to the matching adapter; a string is recognized only
when at least one PEM block can be extracted from it; an unrecognized shape
fails with a type error (spec section 4.5). -/
def CertStore.from_auto (ep : List Nat → CertView) :
    AutoInput → Except CertHumanError CertStore
  | AutoInput.x509Obj x => .ok ⟨x⟩
  | AutoInput.storeObj c => .ok c
  | AutoInput.responseObj r => CertStore.from_response r
  | AutoInput.derBytes bs => (der_to_x509 ep bs).map (fun x => ⟨x⟩)
  | AutoInput.pemText s =>
    if (find_certs s).isEmpty then
      .error (.typeError "Unhandled input: string contains no PEM certificates")
    else (pem_to_x509 ep s).map (fun x => ⟨x⟩)
  | AutoInput.otherObj => .error (.typeError "Unhandled input type for from_auto")

/-- Modelled from the spec: `from_socket` retrieves the full peer chain from
a TLS endpoint and wraps it; the TLS transport itself is out of scope and is
modelled by the oracle `net` (spec sections 1 and 4.5). -/
def CertChainStore.from_socket (net : String → Nat → Except CertHumanError (List X509))
    (host : String) (port : Nat) : Except CertHumanError CertChainStore :=
  match net host port with
  | .ok xs => .ok ⟨xs.map (fun x => ⟨x⟩)⟩
  | .error e => .error e

/-- The parsed command line of the CLI (src/cert_human_cli.py): positional
HOST and optional --port with default 443. -/
structure CliArgs where
  host : String
  port : Nat
deriving DecidableEq

/-- Whether an argument token is an option flag rather than a value. -/
def isFlag (h : String) : Bool :=
  match h.data with
  | '-' :: '-' :: _ => true
  | _ => false

/-- The numeric value of a decimal digit character. -/
def digitVal (c : Char) : Option Nat :=
  if c.isDigit then some (c.toNat - '0'.toNat) else none

/-- Accumulate the decimal value of a digit string. -/
def natOfDigitsAux : Nat → List Char → Option Nat
  | acc, [] => some acc
  | acc, c :: rest =>
    match digitVal c with
    | some d => natOfDigitsAux (acc * 10 + d) rest
    | none => none

/-- Parse the --port argument value as a decimal integer. -/
def parsePort (s : String) : Option Nat :=
  if s.data.isEmpty then none else natOfDigitsAux 0 s.data

/-- The argument parser of src/cert_human_cli.py: one positional HOST, one
optional --port defaulting to 443 (argparse accepts the flag before or after
the positional); `none` models an argparse usage failure. -/
def cli : List String → Option CliArgs
  | [h] => if isFlag h then none else some ⟨h, 443⟩
  | [h, "--port", p] =>
    if isFlag h then none else (parsePort p).map (fun pv => ⟨h, pv⟩)
  | ["--port", p, h] =>
    if isFlag h then none else (parsePort p).map (fun pv => ⟨h, pv⟩)
  | _ => none

/-- The main workflow of src/cert_human_cli.py: build the chain via
`from_socket` and print its `dump_json`; an adapter failure propagates as an
uncaught exception, so the interpreter exits with status 1 printing the
error to standard error.  Result: (standard output, exit status). -/
def runMain (net : String → Nat → Except CertHumanError (List X509)) (a : CliArgs) :
    Option (List Char) × Nat :=
  match CertChainStore.from_socket net a.host a.port with
  | .ok chain => (some (CertChainStore.dump_json chain), 0)
  | .error _ => (none, 1)

/-- The whole CLI entry point: parse arguments (argparse exits with status 2
on a usage error), then run the workflow. -/
def runCli (net : String → Nat → Except CertHumanError (List X509))
    (argv : List String) : Option (List Char) × Nat :=
  match cli argv with
  | some a => runMain net a
  | none => (none, 2)

/-- A trivial stand-in for the external field extractor, used by witnesses. -/
def trivView : List Nat → CertView := fun _ => ⟨[], [], SerialVal.int 0⟩

/-- A concrete certificate whose serial is presented by the external library
as raw bytes, as the repository's `example_cert` fixture is observed to be in
`test_serial_number` (its serial is asserted to be an uppercase string). -/
def exampleSerialCert : CertStore :=
  ⟨⟨[1], ⟨[("common_name", "example.com")], [("common_name", "example.com")],
    SerialVal.bytes [7, 101, 198]⟩⟩⟩

theorem startsWithL_self_append (m v : List Char) : startsWithL m (m ++ v) = true := by
  induction m with
  | nil => rfl
  | cons a as ih => simp [startsWithL, ih]

theorem append_drop_self (a b : List Char) : (a ++ b).drop a.length = b := by
  induction a with
  | nil => rfl
  | cons c a ih => simp [ih]

theorem append_take_self (a b : List Char) : (a ++ b).take a.length = a := by
  induction a with
  | nil => rfl
  | cons c a ih => simp [ih]

theorem splitOnFirst_append (m u v : List Char) (mh : Char) (mt : List Char)
    (hm : m = mh :: mt) (hu : ∀ c ∈ u, c ≠ mh) :
    splitOnFirst m (u ++ m ++ v) = some (u, v) := by
  induction u with
  | nil =>
    have hne : m ++ v = mh :: (mt ++ v) := by simp [hm]
    simp only [List.nil_append, List.append_assoc] at *
    rw [splitOnFirst.eq_def]
    rw [hne]
    have hs : startsWithL m (mh :: (mt ++ v)) = true := by
      rw [← hne]; exact startsWithL_self_append m v
    simp only [hs, if_pos]
    rw [← hne, append_drop_self]
  | cons c u ih =>
    have hc : c ≠ mh := hu c (by simp)
    have hrec := ih (fun x hx => hu x (by simp [hx]))
    simp only [List.cons_append, List.append_assoc] at *
    rw [splitOnFirst.eq_def]
    have hs : startsWithL m (c :: (u ++ (m ++ v))) = false := by
      rw [hm]
      simp [startsWithL]
      intro h
      exact absurd h.symm hc
    simp only [hs, Bool.false_eq_true, if_false]
    rw [hrec]

theorem splitOnFirst_none (m u : List Char) (mh : Char) (mt : List Char)
    (hm : m = mh :: mt) (hu : ∀ c ∈ u, c ≠ mh) :
    splitOnFirst m u = none := by
  induction u with
  | nil => rfl
  | cons c u ih =>
    have hc : c ≠ mh := hu c (by simp)
    rw [splitOnFirst.eq_def]
    have hs : startsWithL m (c :: u) = false := by
      rw [hm]
      simp [startsWithL]
      intro h
      exact absurd h.symm hc
    simp only [hs, Bool.false_eq_true, if_false]
    rw [ih (fun x hx => hu x (by simp [hx]))]

theorem assemble_length (bl : List (List Char × List Char)) :
    ∀ j0 : List Char, bl.length ≤ (assemble j0 bl).length := by
  induction bl with
  | nil => intro j0; simp
  | cons p rest ih =>
    intro j0
    have h := ih p.2
    have hbm : beginMarker.length = 27 := rfl
    simp only [assemble, List.length_append, List.length_cons]
    omega

theorem find_certsAux_assemble (bl : List (List Char × List Char)) :
    ∀ (fuel : Nat) (j0 : List Char), dashFree j0 →
      (∀ p ∈ bl, dashFree p.1 ∧ dashFree p.2) →
      bl.length ≤ fuel →
      find_certsAux fuel (assemble j0 bl) =
        bl.map (fun p => beginMarker ++ p.1 ++ endMarker) := by
  induction bl with
  | nil =>
    intro fuel j0 hj0 _ _
    cases fuel with
    | zero => rfl
    | succ f =>
      have hnone : splitOnFirst beginMarker j0 = none :=
        splitOnFirst_none beginMarker j0 '-' beginMarker.tail rfl hj0
      simp [find_certsAux, assemble, hnone]
  | cons p rest ih =>
    intro fuel j0 hj0 hbl hlen
    cases fuel with
    | zero => simp at hlen
    | succ f =>
      have hp := hbl p (by simp)
      have h1 : splitOnFirst beginMarker (assemble j0 (p :: rest)) =
          some (j0, p.1 ++ (endMarker ++ assemble p.2 rest)) := by
        have he : assemble j0 (p :: rest) =
            j0 ++ beginMarker ++ (p.1 ++ (endMarker ++ assemble p.2 rest)) := by
          simp [assemble, List.append_assoc]
        rw [he]
        exact splitOnFirst_append beginMarker j0 _ '-' beginMarker.tail rfl hj0
      have h2 : splitOnFirst endMarker (p.1 ++ (endMarker ++ assemble p.2 rest)) =
          some (p.1, assemble p.2 rest) := by
        have he : p.1 ++ (endMarker ++ assemble p.2 rest) =
            p.1 ++ endMarker ++ assemble p.2 rest := by
          simp [List.append_assoc]
        rw [he]
        exact splitOnFirst_append endMarker p.1 _ '-' endMarker.tail rfl hp.1
      simp only [find_certsAux, h1, h2, List.map_cons]
      rw [ih f p.2 hp.2 (fun q hq => hbl q (by simp [hq])) (by simpa using hlen)]

theorem find_certs_assemble (j0 : List Char) (bl : List (List Char × List Char))
    (hj0 : dashFree j0) (hbl : ∀ p ∈ bl, dashFree p.1 ∧ dashFree p.2) :
    find_certs (assemble j0 bl) = bl.map (fun p => beginMarker ++ p.1 ++ endMarker) :=
  find_certsAux_assemble bl (assemble j0 bl).length j0 hj0 hbl (assemble_length bl j0)

/-- Claim C2: on input text consisting of exactly `n` PEM blocks with
dash-free junk text between and around them, `find_certs` returns exactly `n`
strings, in order of appearance, each starting with the begin boundary marker
and ending with the end boundary marker. -/
theorem c2_find_certs (j0 : List Char) (bl : List (List Char × List Char))
    (hj0 : dashFree j0) (hbl : ∀ p ∈ bl, dashFree p.1 ∧ dashFree p.2) :
    find_certs (assemble j0 bl) = bl.map (fun p => beginMarker ++ p.1 ++ endMarker) ∧
    (find_certs (assemble j0 bl)).length = bl.length ∧
    ∀ s ∈ find_certs (assemble j0 bl),
      startsWithL beginMarker s = true ∧ endsWithL endMarker s = true := by
  have heq := find_certs_assemble j0 bl hj0 hbl
  refine ⟨heq, by rw [heq]; simp, ?_⟩
  intro s hs
  rw [heq] at hs
  rcases List.mem_map.mp hs with ⟨p, _, rfl⟩
  constructor
  · have : beginMarker ++ p.1 ++ endMarker = beginMarker ++ (p.1 ++ endMarker) := by
      simp [List.append_assoc]
    rw [this]
    exact startsWithL_self_append beginMarker _
  · unfold endsWithL
    have : (beginMarker ++ p.1 ++ endMarker).reverse =
        endMarker.reverse ++ (p.1.reverse ++ beginMarker.reverse) := by
      simp [List.reverse_append]
    rw [this]
    exact startsWithL_self_append endMarker.reverse _

/-- Witness for C2, at the shape of the repository's `test_find_certs`
fixture: two blocks with junk text before, between and after. -/
theorem c2_find_certs_witness :
    dashFree "junk\n".data ∧
    (∀ p ∈ [("\nAAAA\n".data, "\nother\ngobbledy\ngook\nhere\n".data),
            ("\nBBBB\n".data, "\ntrailing junk".data)],
      dashFree p.1 ∧ dashFree p.2) ∧
    find_certs (assemble "junk\n".data
        [("\nAAAA\n".data, "\nother\ngobbledy\ngook\nhere\n".data),
         ("\nBBBB\n".data, "\ntrailing junk".data)]) =
      [("\nAAAA\n".data, "\nother\ngobbledy\ngook\nhere\n".data),
       ("\nBBBB\n".data, "\ntrailing junk".data)].map
        (fun p => beginMarker ++ p.1 ++ endMarker) :=
  ⟨by decide, by decide,
   (c2_find_certs "junk\n".data _ (by decide) (by decide)).1⟩

theorem b64alphabet_chars : ∀ c ∈ b64alphabet, c ≠ '-' ∧ c ≠ '\n' ∧ c ≠ '=' := by
  decide

theorem b64char_mem (n : Nat) : b64char n ∈ b64alphabet := by
  unfold b64char
  by_cases h : n < b64alphabet.length
  · rw [List.getD_eq_getElem _ _ h]
    exact List.getElem_mem h
  · rw [List.getD_eq_default _ _ (by omega)]
    decide

theorem b64char_ne (n : Nat) : b64char n ≠ '-' ∧ b64char n ≠ '\n' ∧ b64char n ≠ '=' :=
  b64alphabet_chars (b64char n) (b64char_mem n)

theorem b64_val_char : ∀ n, n < 64 → b64val (b64char n) = some n := by
  decide

theorem b64_roundtrip :
    ∀ bs : List Nat, (∀ b ∈ bs, b < 256) → b64decode (b64encode bs) = some bs
  | [] => fun _ => rfl
  | [b1] => fun h => by
    have hb1 : b1 < 256 := h b1 (by simp)
    simp only [b64encode, b64decode]
    rw [b64_val_char (b1 / 4) (by omega), b64_val_char (b1 % 4 * 16) (by omega)]
    simp only [Option.some_bind, reduceIte, and_self, Option.some.injEq, List.cons.injEq,
      and_true]
    omega
  | [b1, b2] => fun h => by
    have hb1 : b1 < 256 := h b1 (by simp)
    have hb2 : b2 < 256 := h b2 (by simp)
    simp only [b64encode, b64decode]
    rw [b64_val_char (b1 / 4) (by omega), b64_val_char (b1 % 4 * 16 + b2 / 16) (by omega)]
    simp only [Option.some_bind]
    rw [if_neg (b64char_ne (b2 % 16 * 4)).2.2]
    rw [b64_val_char (b2 % 16 * 4) (by omega)]
    simp only [Option.some_bind, reduceIte, Option.some.injEq, List.cons.injEq, and_true]
    omega
  | b1 :: b2 :: b3 :: rest => fun h => by
    have hb1 : b1 < 256 := h b1 (by simp)
    have hb2 : b2 < 256 := h b2 (by simp)
    have hb3 : b3 < 256 := h b3 (by simp)
    have ih := b64_roundtrip rest (fun b hb => h b (by simp [hb]))
    rw [b64encode]
    rw [b64decode]
    rw [b64_val_char (b1 / 4) (by omega), b64_val_char (b1 % 4 * 16 + b2 / 16) (by omega)]
    simp only [Option.some_bind]
    rw [if_neg (b64char_ne (b2 % 16 * 4 + b3 / 64)).2.2]
    rw [b64_val_char (b2 % 16 * 4 + b3 / 64) (by omega)]
    simp only [Option.some_bind]
    rw [if_neg (b64char_ne (b3 % 64)).2.2]
    rw [b64_val_char (b3 % 64) (by omega)]
    simp only [Option.some_bind]
    rw [ih]
    simp only [Option.some_bind, Option.some.injEq, List.cons.injEq]
    refine ⟨by omega, by omega, by omega, trivial⟩

theorem chunksAux_flatten :
    ∀ (fuel k : Nat) (l : List Char), l.length ≤ fuel → 1 ≤ k →
      (chunksAux fuel k l).flatten = l
  | 0, k, l => by
    intro h _
    have : l = [] := by cases l with | nil => rfl | cons c r => simp at h
    simp [this, chunksAux]
  | fuel + 1, _, [] => by intro _ _; rfl
  | fuel + 1, k, c :: rest => by
    intro h hk
    have hlen : ((c :: rest).drop k).length ≤ fuel := by
      simp only [List.length_drop, List.length_cons]
      simp only [List.length_cons] at h
      omega
    have ih := chunksAux_flatten fuel k ((c :: rest).drop k) hlen hk
    simp only [chunksAux, List.flatten_cons, ih]
    exact List.take_append_drop k (c :: rest)

theorem chunksAux_subset :
    ∀ (fuel k : Nat) (l ch : List Char), ch ∈ chunksAux fuel k l → ∀ a ∈ ch, a ∈ l
  | 0, k, l, ch => by intro h; simp [chunksAux] at h
  | fuel + 1, k, [], ch => by intro h; simp [chunksAux] at h
  | fuel + 1, k, c :: rest, ch => by
    intro hch a ha
    simp only [chunksAux, List.mem_cons] at hch
    rcases hch with rfl | hch
    · exact List.take_subset k (c :: rest) ha
    · exact List.drop_subset k (c :: rest) (chunksAux_subset fuel k _ ch hch a ha)

theorem pemLines_mem (e : List Char) (c : Char) (hc : c ∈ pemLines e) :
    c = '\n' ∨ c ∈ e := by
  unfold pemLines at hc
  rcases List.mem_flatten.mp hc with ⟨piece, hpiece, hcp⟩
  rcases List.mem_map.mp hpiece with ⟨ch, hch, rfl⟩
  rcases List.mem_append.mp hcp with h | h
  · exact Or.inr (chunksAux_subset e.length 64 e ch hch c h)
  · left; simpa using h

theorem b64encode_chars :
    ∀ (bs : List Nat) (c : Char), c ∈ b64encode bs → c ≠ '-' ∧ c ≠ '\n'
  | [], c, h => by simp [b64encode] at h
  | [b1], c, h => by
    simp only [b64encode, List.mem_cons, List.not_mem_nil, or_false] at h
    rcases h with rfl | rfl | rfl | rfl
    · exact ⟨(b64char_ne _).1, (b64char_ne _).2.1⟩
    · exact ⟨(b64char_ne _).1, (b64char_ne _).2.1⟩
    · exact ⟨by decide, by decide⟩
    · exact ⟨by decide, by decide⟩
  | [b1, b2], c, h => by
    simp only [b64encode, List.mem_cons, List.not_mem_nil, or_false] at h
    rcases h with rfl | rfl | rfl | rfl
    · exact ⟨(b64char_ne _).1, (b64char_ne _).2.1⟩
    · exact ⟨(b64char_ne _).1, (b64char_ne _).2.1⟩
    · exact ⟨(b64char_ne _).1, (b64char_ne _).2.1⟩
    · exact ⟨by decide, by decide⟩
  | b1 :: b2 :: b3 :: rest, c, h => by
    simp only [b64encode, List.mem_cons] at h
    rcases h with rfl | rfl | rfl | rfl | h
    · exact ⟨(b64char_ne _).1, (b64char_ne _).2.1⟩
    · exact ⟨(b64char_ne _).1, (b64char_ne _).2.1⟩
    · exact ⟨(b64char_ne _).1, (b64char_ne _).2.1⟩
    · exact ⟨(b64char_ne _).1, (b64char_ne _).2.1⟩
    · exact b64encode_chars rest c h

theorem x509_to_pem_der_assemble (der : List Nat) :
    x509_to_pem_der der = assemble [] [('\n' :: pemLines (b64encode der), ['\n'])] := by
  simp [x509_to_pem_der, assemble]

theorem pemMid_dashFree (der : List Nat) : dashFree ('\n' :: pemLines (b64encode der)) := by
  intro c hc
  rcases List.mem_cons.mp hc with rfl | hc
  · decide
  · rcases pemLines_mem _ c hc with rfl | hc
    · decide
    · exact (b64encode_chars der c hc).1

theorem find_certs_pem (der : List Nat) :
    find_certs (x509_to_pem_der der) =
      [beginMarker ++ ('\n' :: pemLines (b64encode der)) ++ endMarker] := by
  rw [x509_to_pem_der_assemble]
  have hbl : ∀ p ∈ [('\n' :: pemLines (b64encode der), ['\n'])],
      dashFree p.1 ∧ dashFree p.2 := by
    intro p hp
    simp only [List.mem_singleton] at hp
    subst hp
    refine ⟨pemMid_dashFree der, ?_⟩
    show dashFree ['\n']
    decide
  rw [find_certs_assemble [] _ (by decide) hbl]
  simp

theorem stripBlock_block (mid : List Char) :
    stripBlock (beginMarker ++ mid ++ endMarker) = mid := by
  unfold stripBlock
  have h1 : (beginMarker ++ mid ++ endMarker).drop beginMarker.length = mid ++ endMarker := by
    rw [List.append_assoc]
    exact append_drop_self _ _
  rw [h1]
  have h2 : (mid ++ endMarker).length - endMarker.length = mid.length := by simp
  rw [h2]
  exact append_take_self _ _

theorem nlFilter_lines :
    ∀ chunks : List (List Char), (∀ ch ∈ chunks, ∀ a ∈ ch, a ≠ '\n') →
      nlFilter ((chunks.map (fun c => c ++ ['\n'])).flatten) = chunks.flatten := by
  intro chunks
  induction chunks with
  | nil => intro _; rfl
  | cons ch rest ih =>
    intro h
    simp only [List.map_cons, List.flatten_cons]
    unfold nlFilter at *
    rw [List.filter_append, List.filter_append]
    have h1 : ch.filter (fun c => !(c == '\n')) = ch :=
      List.filter_eq_self.mpr (fun a ha => by
        simpa using h ch (by simp) a ha)
    have h2 : List.filter (fun c => !(c == '\n')) ['\n'] = [] := rfl
    rw [h1, h2, ih (fun x hx a ha => h x (by simp [hx]) a ha)]
    simp

theorem nlFilter_pemLines (e : List Char) (he : ∀ c ∈ e, c ≠ '\n') :
    nlFilter (pemLines e) = e := by
  have hsub : ∀ ch ∈ chunksOf 64 e, ∀ a ∈ ch, a ≠ '\n' := by
    intro ch hch a ha
    exact he a (chunksAux_subset e.length 64 e ch hch a ha)
  unfold pemLines
  rw [nlFilter_lines (chunksOf 64 e) hsub]
  exact chunksAux_flatten e.length 64 e le_rfl (by omega)

theorem pem_roundtrip_core (ep : List Nat → CertView) (der : List Nat)
    (h : ∀ b ∈ der, b < 256) :
    pem_to_x509 ep (x509_to_pem_der der) = .ok ⟨der, ep der⟩ := by
  unfold pem_to_x509
  rw [find_certs_pem]
  have hmid : nlFilter (stripBlock (beginMarker ++ ('\n' :: pemLines (b64encode der)) ++
      endMarker)) = b64encode der := by
    rw [stripBlock_block]
    unfold nlFilter
    rw [List.filter_cons_of_neg (by decide)]
    exact nlFilter_pemLines _ (fun c hc => (b64encode_chars der c hc).2)
  simp only [hmid, b64_roundtrip der h]

/-- Claim C1: codec round-trips — for every valid PEM certificate `p`,
parsing and re-encoding yields `p` back, and for every parsed certificate
object, converting to DER and parsing the DER back yields an object with the
same PEM encoding. -/
theorem c1_roundtrip (ep : List Nat → CertView) :
    (∀ p, validPem p → ∃ x, pem_to_x509 ep p = .ok x ∧ x509_to_pem x = p) ∧
    (∀ x : X509, wfDer x.der →
      ∃ y, der_to_x509 ep (x509_to_der x) = .ok y ∧ x509_to_pem y = x509_to_pem x) := by
  constructor
  · intro p hp
    rcases hp with ⟨der, ⟨_, hlt⟩, rfl⟩
    exact ⟨⟨der, ep der⟩, pem_roundtrip_core ep der hlt, rfl⟩
  · intro x hx
    rcases hx with ⟨hne, hlt⟩
    refine ⟨⟨x.der, ep x.der⟩, ?_, rfl⟩
    unfold der_to_x509 x509_to_der
    have h1 : x.der.isEmpty = false := by
      cases hh : x.der with
      | nil => exact absurd hh hne
      | cons a l => rfl
    have h2 : (x.der.all fun b => decide (b < 256)) = true :=
      List.all_eq_true.mpr (fun b hb => by simpa using hlt b hb)
    rw [if_pos (by rw [h1, h2]; rfl)]

/-- Witness for C1 at the concrete DER byte string `[1, 2, 3]`. -/
theorem c1_roundtrip_witness :
    validPem (x509_to_pem_der [1, 2, 3]) ∧
    (∃ x, pem_to_x509 trivView (x509_to_pem_der [1, 2, 3]) = .ok x ∧
      x509_to_pem x = x509_to_pem_der [1, 2, 3]) ∧
    wfDer (X509.der ⟨[1, 2, 3], trivView [1, 2, 3]⟩) ∧
    (∃ y, der_to_x509 trivView (x509_to_der ⟨[1, 2, 3], trivView [1, 2, 3]⟩) = .ok y ∧
      x509_to_pem y = x509_to_pem ⟨[1, 2, 3], trivView [1, 2, 3]⟩) :=
  ⟨⟨[1, 2, 3], by decide, rfl⟩,
   (c1_roundtrip trivView).1 _ ⟨[1, 2, 3], by decide, rfl⟩,
   by decide,
   (c1_roundtrip trivView).2 _ (by decide)⟩

theorem bytesHex_length (bs : List Nat) : (bytesHex bs).length = 2 * bs.length := by
  induction bs with
  | nil => rfl
  | cons b rest ih =>
    simp only [bytesHex, List.map_cons, List.flatten_cons, List.length_append] at ih ⊢
    simp only [List.length_cons, List.length_nil]
    omega

theorem hexify_bytes_zerofill (bs : List Nat) (space : Bool) :
    hexify (HexInput.bytes bs) true space = hexify (HexInput.bytes bs) false space := by
  unfold hexify
  have h : ((bytesHex bs).length % 2 == 1) = false := by
    rw [bytesHex_length]
    simp [Nat.mul_mod_right]
  simp [h]

/-- Claim C3: `hexify` — integers become the uppercase hex form, left-padded
with one leading zero to even length exactly when `zerofill` is set and the
natural length is odd; byte strings are hex-encoded directly, preserving
leading zero bytes regardless of `zerofill`; `space` inserts a single space
between byte pairs; including the concrete values of the repository's
`test_hexify_int` and `test_hexify_bytes`. -/
theorem c3_hexify :
    (∀ n : Nat, hexify (HexInput.int n) true false =
        (if (toHex n).length % 2 == 1 then '0' :: toHex n else toHex n) ∧
      hexify (HexInput.int n) false false = toHex n) ∧
    (∀ bs : List Nat, hexify (HexInput.bytes bs) true false = bytesHex bs ∧
      hexify (HexInput.bytes bs) false false = bytesHex bs ∧
      hexify (HexInput.bytes bs) true true =
        List.intercalate [' '] (chunksOf 2 (bytesHex bs))) ∧
    hexify (HexInput.int 9833040086282421696121167723365753840) true false =
      "0765C64E74E591D68039CA2A847563F0".data ∧
    hexify (HexInput.int 9833040086282421696121167723365753840) false false =
      "765C64E74E591D68039CA2A847563F0".data ∧
    hexify (HexInput.int 9833040086282421696121167723365753840) true true =
      "07 65 C6 4E 74 E5 91 D6 80 39 CA 2A 84 75 63 F0".data ∧
    hexify (HexInput.bytes [0x00, 0x93, 0xCE, 0xF7, 0xFF, 0xED]) true false =
      "0093CEF7FFED".data ∧
    hexify (HexInput.bytes [0x00, 0x93, 0xCE, 0xF7, 0xFF, 0xED]) false false =
      "0093CEF7FFED".data ∧
    hexify (HexInput.bytes [0x00, 0x93, 0xCE, 0xF7, 0xFF, 0xED]) true true =
      "00 93 CE F7 FF ED".data := by
  refine ⟨fun n => ⟨?_, ?_⟩, fun bs => ⟨?_, ?_, ?_⟩, ?_, ?_, ?_, ?_, ?_, ?_⟩
  · simp [hexify]
  · simp [hexify]
  · rw [hexify_bytes_zerofill]; simp [hexify]
  · simp [hexify]
  · rw [hexify_bytes_zerofill]
    unfold hexify
    have h : ((bytesHex bs).length % 2 == 1) = false := by
      rw [bytesHex_length]
      simp [Nat.mul_mod_right]
    simp [h]
  · decide
  · decide
  · decide
  · decide
  · decide
  · decide

/-- Claim C4: `build_url` — the result always has the shape
`scheme://hostname:port`; a scheme embedded in the host is reused (default
`https`); a `:port` suffix of the host overrides the port argument; including
the five concrete values of the repository's `test_build_url_*` tests. -/
theorem c4_build_url :
    (∀ (host : List Char) (port : Nat), ∃ s h p,
      build_url host port = s ++ "://".data ++ h ++ [':'] ++ p) ∧
    build_url "cyborg".data 443 = "https://cyborg:443".data ∧
    build_url "cyborg".data 445 = "https://cyborg:445".data ∧
    build_url "cyborg:445".data 443 = "https://cyborg:445".data ∧
    build_url "http://cyborg".data 443 = "http://cyborg:443".data ∧
    build_url "http://cyborg:445".data 443 = "http://cyborg:445".data := by
  have hrest : ∀ (scheme rest : List Char) (port : Nat), ∃ h p,
      buildUrlRest scheme rest port = scheme ++ "://".data ++ h ++ [':'] ++ p := by
    intro scheme rest port
    unfold buildUrlRest
    rcases hc : splitOnFirst [':'] rest with _ | ⟨hn, ps⟩
    · exact ⟨rest, (Nat.repr port).data, rfl⟩
    · exact ⟨hn, ps, rfl⟩
  refine ⟨fun host port => ?_, by decide, by decide, by decide, by decide, by decide⟩
  unfold build_url
  rcases hsp : splitOnFirst "://".data host with _ | ⟨s, r⟩
  · obtain ⟨hh, pp, he⟩ := hrest "https".data host port
    exact ⟨"https".data, hh, pp, he⟩
  · obtain ⟨hh, pp, he⟩ := hrest s r port
    exact ⟨s, hh, pp, he⟩

theorem hexDigit_mem (m : Nat) : hexDigit m ∈ "0123456789ABCDEF".data := by
  unfold hexDigit
  by_cases h : m < ("0123456789ABCDEF".data).length
  · rw [List.getD_eq_getElem _ _ h]
    exact List.getElem_mem h
  · rw [List.getD_eq_default _ _ (by omega)]
    decide

theorem hexDigit_hexUpper (m : Nat) : isHexUpper (hexDigit m) = true :=
  decide_eq_true (hexDigit_mem m)

theorem bytesHex_mem (bs : List Nat) (c : Char) (hc : c ∈ bytesHex bs) :
    ∃ m, c = hexDigit m := by
  unfold bytesHex at hc
  rcases List.mem_flatten.mp hc with ⟨piece, hp, hcp⟩
  rcases List.mem_map.mp hp with ⟨b, _, rfl⟩
  simp only [List.mem_cons, List.not_mem_nil, or_false] at hcp
  rcases hcp with rfl | rfl
  · exact ⟨b / 16, rfl⟩
  · exact ⟨b % 16, rfl⟩

theorem der_to_x509_ok (ep : List Nat → CertView) (der : List Nat) (h : wfDer der) :
    der_to_x509 ep der = .ok ⟨der, ep der⟩ := by
  rcases h with ⟨hne, hlt⟩
  unfold der_to_x509
  have h1 : der.isEmpty = false := by
    cases hh : der with
    | nil => exact absurd hh hne
    | cons a l => rfl
  have h2 : (der.all fun b => decide (b < 256)) = true :=
    List.all_eq_true.mpr (fun b hb => by simpa using hlt b hb)
  rw [if_pos (by rw [h1, h2]; rfl)]

/-- Claim C5: for every certificate whose issuer distinguished name equals
its subject distinguished name, `is_self_issued` is true and
`is_self_signed` is `maybe`; and `is_self_signed` is never `yes`, since
signature-against-own-key verification is never performed. -/
theorem c5_self_signed :
    (∀ c : CertStore, c.x509.view.issuer = c.x509.view.subject →
      CertStore.is_self_issued c = true ∧
      CertStore.is_self_signed c = SelfSigned.maybe) ∧
    (∀ c : CertStore, CertStore.is_self_signed c ≠ SelfSigned.yes) := by
  constructor
  · intro c h
    have h1 : CertStore.is_self_issued c = true := by
      unfold CertStore.is_self_issued
      exact decide_eq_true h
    refine ⟨h1, ?_⟩
    unfold CertStore.is_self_signed
    rw [h1]
    rfl
  · intro c
    unfold CertStore.is_self_signed
    cases h : CertStore.is_self_issued c <;> simp

/-- Witness for C5 at a concrete self-issued certificate. -/
theorem c5_self_signed_witness :
    (CertStore.x509 ⟨⟨[1], ⟨[("common_name", "x")], [("common_name", "x")],
        SerialVal.int 5⟩⟩⟩).view.issuer =
      (CertStore.x509 ⟨⟨[1], ⟨[("common_name", "x")], [("common_name", "x")],
        SerialVal.int 5⟩⟩⟩).view.subject ∧
    CertStore.is_self_issued ⟨⟨[1], ⟨[("common_name", "x")], [("common_name", "x")],
      SerialVal.int 5⟩⟩⟩ = true ∧
    CertStore.is_self_signed ⟨⟨[1], ⟨[("common_name", "x")], [("common_name", "x")],
      SerialVal.int 5⟩⟩⟩ = SelfSigned.maybe :=
  ⟨rfl, c5_self_signed.1 _ rfl⟩

/-- Claim C6: a chain built by three `append` calls — with a parsed
certificate object, a `CertStore`, and PEM text — has length 3, each input
normalized to a `CertStore` in insertion order, and its `dump_str` carries
the 1-indexed headers `CertStore #1`, `CertStore #2`, `CertStore #3` in that
order. -/
theorem c6_chain_append (ep : List Nat → CertView) (x1 : X509) (s2 : CertStore)
    (x3 : X509) (h3 : wfDer x3.der) :
    ∃ ch : CertChainStore,
      (CertChainStore.append ep ⟨[]⟩ (ChainInput.x509Obj x1)).bind (fun c1 =>
        (CertChainStore.append ep c1 (ChainInput.storeObj s2)).bind (fun c2 =>
          CertChainStore.append ep c2 (ChainInput.pemText (x509_to_pem x3)))) = .ok ch ∧
      ch.certs.length = 3 ∧
      ch.certs = [⟨x1⟩, s2, ⟨⟨x3.der, ep x3.der⟩⟩] ∧
      ∃ a b c : List Char, CertChainStore.dump_str ch =
        chainHeader 1 ++ (a ++ (chainHeader 2 ++ (b ++ (chainHeader 3 ++ c)))) := by
  refine ⟨⟨[⟨x1⟩, s2, ⟨⟨x3.der, ep x3.der⟩⟩]⟩, ?_, rfl, rfl, ?_⟩
  · have hpem : pem_to_x509 ep (x509_to_pem x3) = .ok ⟨x3.der, ep x3.der⟩ :=
      pem_roundtrip_core ep x3.der h3.2
    simp only [CertChainStore.append, Except.bind, hpem]
    rfl
  · refine ⟨CertStore.dump_str ⟨x1⟩, CertStore.dump_str s2,
      CertStore.dump_str ⟨⟨x3.der, ep x3.der⟩⟩, ?_⟩
    simp [CertChainStore.dump_str, List.enum, List.enumFrom, List.append_assoc]

/-- Witness for C6 at concrete certificates with DER bytes [1], [2], [3]. -/
theorem c6_chain_append_witness :
    wfDer (X509.der ⟨[3], trivView [3]⟩) ∧
    ∃ ch : CertChainStore,
      (CertChainStore.append trivView ⟨[]⟩
          (ChainInput.x509Obj ⟨[1], trivView [1]⟩)).bind (fun c1 =>
        (CertChainStore.append trivView c1
            (ChainInput.storeObj ⟨⟨[2], trivView [2]⟩⟩)).bind (fun c2 =>
          CertChainStore.append trivView c2
            (ChainInput.pemText (x509_to_pem ⟨[3], trivView [3]⟩)))) = .ok ch ∧
      ch.certs.length = 3 ∧
      ch.certs = [⟨⟨[1], trivView [1]⟩⟩, ⟨⟨[2], trivView [2]⟩⟩,
        ⟨⟨(X509.der ⟨[3], trivView [3]⟩), trivView (X509.der ⟨[3], trivView [3]⟩)⟩⟩] ∧
      ∃ a b c : List Char, CertChainStore.dump_str ch =
        chainHeader 1 ++ (a ++ (chainHeader 2 ++ (b ++ (chainHeader 3 ++ c)))) :=
  ⟨by decide, c6_chain_append trivView ⟨[1], trivView [1]⟩ ⟨⟨[2], trivView [2]⟩⟩
    ⟨[3], trivView [3]⟩ (by decide)⟩

/-- Claim C7 as stated is false on the code: the repository's own test
`test_serial_number` asserts `store.serial_number.isupper()` for the
`example_cert` fixture, i.e. the serial number there is an uppercase hex
string, not a big integer (and `test_serial_number_str` asserts the str form
is an integer for the `ec_cert` fixture).  This counterexample exhibits a
certificate, with its serial presented as raw bytes as for `example_cert`,
whose `serial_number` is a string. -/
theorem c7_counterexample :
    ¬ (∀ c : CertStore, ∃ n : Nat,
        CertStore.serial_number c = SerialOut.int n ∧
        CertStore.serial_number_str c =
          SerialOut.str (hexify (HexInput.int n) true false)) := by
  intro h
  obtain ⟨n, hn, _⟩ := h exampleSerialCert
  have heq : CertStore.serial_number exampleSerialCert =
      SerialOut.str (hexify (HexInput.bytes [7, 101, 198]) true false) := rfl
  rw [heq] at hn
  exact SerialOut.noConfusion hn

/-- Claim C7, amended: `serial_number` is a big integer when the external
library presents the serial as an integer (and then `serial_number_str` is
that same integer), and an uppercase hex string when it presents raw bytes
(and then `serial_number_str` is the space-separated uppercase hex form). -/
theorem c7_serial_amended :
    ∀ c : CertStore,
      (∀ n, c.x509.view.serial = SerialVal.int n →
        CertStore.serial_number c = SerialOut.int n ∧
        CertStore.serial_number_str c = SerialOut.int n) ∧
      (∀ bs, c.x509.view.serial = SerialVal.bytes bs →
        CertStore.serial_number c = SerialOut.str (hexify (HexInput.bytes bs) true false) ∧
        CertStore.serial_number_str c = SerialOut.str (hexify (HexInput.bytes bs) true true) ∧
        ∀ ch ∈ hexify (HexInput.bytes bs) true false, isHexUpper ch = true) := by
  intro c
  constructor
  · intro n h
    unfold CertStore.serial_number CertStore.serial_number_str
    rw [h]
    exact ⟨rfl, rfl⟩
  · intro bs h
    unfold CertStore.serial_number CertStore.serial_number_str
    rw [h]
    refine ⟨rfl, rfl, ?_⟩
    intro ch hch
    rw [hexify_bytes_zerofill] at hch
    have hbh : hexify (HexInput.bytes bs) false false = bytesHex bs := by
      simp [hexify]
    rw [hbh] at hch
    obtain ⟨m, rfl⟩ := bytesHex_mem bs ch hch
    exact hexDigit_hexUpper m

/-- Witness for the amended C7, at a bytes-presented and an int-presented
serial. -/
theorem c7_serial_amended_witness :
    (CertStore.serial_number exampleSerialCert =
        SerialOut.str (hexify (HexInput.bytes [7, 101, 198]) true false) ∧
      CertStore.serial_number_str exampleSerialCert =
        SerialOut.str (hexify (HexInput.bytes [7, 101, 198]) true true) ∧
      ∀ ch ∈ hexify (HexInput.bytes [7, 101, 198]) true false, isHexUpper ch = true) ∧
    (CertStore.serial_number ⟨⟨[2], ⟨[], [], SerialVal.int 9⟩⟩⟩ = SerialOut.int 9 ∧
      CertStore.serial_number_str ⟨⟨[2], ⟨[], [], SerialVal.int 9⟩⟩⟩ = SerialOut.int 9) :=
  ⟨(c7_serial_amended exampleSerialCert).2 [7, 101, 198] rfl,
   (c7_serial_amended ⟨⟨[2], ⟨[], [], SerialVal.int 9⟩⟩⟩).1 9 rfl⟩

/-- Claim C8: every failure mode is surfaced as a typed failure with a
nonempty human-readable message, with a distinct error kind (constructor)
per failure mode: a state error for patch-dependent calls while the patch is
inactive, file conflict/access errors for the write adapter, type errors for
unrecognized `from_auto` input, a format error for a wrong certificate count
in `from_path`, and decode errors for malformed PEM/DER. -/
theorem c8_error_kinds (ep : List Nat → CertView) :
    (∃ m, check_urllib3_patch false = .error (.stateError m) ∧ m ≠ "") ∧
    (∀ r : Response, r.peer_cert = none →
      ∃ m, CertStore.from_response r = .error (.stateError m) ∧ m ≠ "") ∧
    (∀ (parentExists mkparent : Bool) (text : List Char),
      ∃ m, write_file parentExists true mkparent false text =
        .error (.fileConflictError m) ∧ m ≠ "") ∧
    (∀ (overwrite : Bool) (text : List Char),
      ∃ m, write_file false false false overwrite text =
        .error (.fileAccessError m) ∧ m ≠ "") ∧
    (∀ s, find_certs s = [] →
      ∃ m, CertStore.from_auto ep (AutoInput.pemText s) = .error (.typeError m) ∧ m ≠ "") ∧
    (∃ m, CertStore.from_auto ep AutoInput.otherObj = .error (.typeError m) ∧ m ≠ "") ∧
    (∀ content, (find_certs content).length ≠ 1 →
      ∃ m, CertStore.from_path ep content = .error (.formatError m) ∧ m ≠ "") ∧
    (∀ text, find_certs text = [] →
      ∃ m, pem_to_x509 ep text = .error (.decodeError m) ∧ m ≠ "") ∧
    (∃ m, der_to_x509 ep [999] = .error (.decodeError m) ∧ m ≠ "") := by
  refine ⟨⟨_, rfl, by decide⟩, ?_, ?_, ?_, ?_, ⟨_, rfl, by decide⟩, ?_, ?_, ⟨_, rfl, by decide⟩⟩
  · intro r h
    unfold CertStore.from_response
    rw [h]
    exact ⟨_, rfl, by decide⟩
  · intro parentExists mkparent text
    exact ⟨_, rfl, by decide⟩
  · intro overwrite text
    exact ⟨_, rfl, by decide⟩
  · intro s h
    simp only [CertStore.from_auto, h, List.isEmpty_nil, if_true]
    exact ⟨_, rfl, by decide⟩
  · intro content h
    unfold CertStore.from_path
    rw [if_neg h]
    exact ⟨_, rfl, by decide⟩
  · intro text h
    unfold pem_to_x509
    rw [h]
    exact ⟨_, rfl, by decide⟩

/-- Witness for C8, every failure mode at a concrete input. -/
theorem c8_error_kinds_witness :
    (∃ m, check_urllib3_patch false = .error (.stateError m) ∧ m ≠ "") ∧
    (∃ m, CertStore.from_response ⟨none, none⟩ = .error (.stateError m) ∧ m ≠ "") ∧
    (∃ m, write_file true true true false "x".data =
      .error (.fileConflictError m) ∧ m ≠ "") ∧
    (∃ m, write_file false false false false "x".data =
      .error (.fileAccessError m) ∧ m ≠ "") ∧
    (∃ m, CertStore.from_auto trivView (AutoInput.pemText "x".data) =
      .error (.typeError m) ∧ m ≠ "") ∧
    (∃ m, CertStore.from_auto trivView AutoInput.otherObj =
      .error (.typeError m) ∧ m ≠ "") ∧
    (∃ m, CertStore.from_path trivView [] = .error (.formatError m) ∧ m ≠ "") ∧
    (∃ m, pem_to_x509 trivView [] = .error (.decodeError m) ∧ m ≠ "") ∧
    (∃ m, der_to_x509 trivView [999] = .error (.decodeError m) ∧ m ≠ "") := by
  have h := c8_error_kinds trivView
  exact ⟨h.1, h.2.1 ⟨none, none⟩ rfl, h.2.2.1 true true "x".data,
    h.2.2.2.1 false "x".data, h.2.2.2.2.1 "x".data (by decide), h.2.2.2.2.2.1,
    h.2.2.2.2.2.2.1 [] (by decide), h.2.2.2.2.2.2.2.1 [] (by decide),
    h.2.2.2.2.2.2.2.2⟩

/-- Claim C9: the CLI parses `HOST [--port PORT]` with port defaulting to
443, connects via the `from_socket` chain adapter, prints the chain's
`dump_json` to standard output with exit status 0, and exits with a non-zero
status on any adapter failure. -/
theorem c9_cli (net : String → Nat → Except CertHumanError (List X509)) :
    (∀ h : String, isFlag h = false → cli [h] = some ⟨h, 443⟩) ∧
    (∀ (h p : String) (pv : Nat), isFlag h = false → parsePort p = some pv →
      cli [h, "--port", p] = some ⟨h, pv⟩) ∧
    (∀ (a : CliArgs) (xs : List X509), net a.host a.port = .ok xs →
      runMain net a = (some (CertChainStore.dump_json ⟨xs.map (fun x => ⟨x⟩)⟩), 0)) ∧
    (∀ (a : CliArgs) (e : CertHumanError), net a.host a.port = .error e →
      (runMain net a).2 = 1) := by
  refine ⟨?_, ?_, ?_, ?_⟩
  · intro h hf
    simp [cli, hf]
  · intro h p pv hf hp
    simp [cli, hf, hp]
  · intro a xs h
    unfold runMain CertChainStore.from_socket
    rw [h]
  · intro a e h
    unfold runMain CertChainStore.from_socket
    rw [h]

/-- Witness for C9: a host-only and a host-with-port invocation, with a
connecting and a failing socket oracle. -/
theorem c9_cli_witness :
    isFlag "example.com" = false ∧
    cli ["example.com"] = some ⟨"example.com", 443⟩ ∧
    parsePort "8443" = some 8443 ∧
    cli ["example.com", "--port", "8443"] = some ⟨"example.com", 8443⟩ ∧
    runMain (fun _ _ => .ok []) ⟨"example.com", 443⟩ =
      (some (CertChainStore.dump_json ⟨([] : List X509).map (fun x => ⟨x⟩)⟩), 0) ∧
    (runMain (fun _ _ => .error (.connectionError "connection refused"))
      ⟨"example.com", 443⟩).2 = 1 := by
  refine ⟨by decide, ?_, by decide, ?_, ?_, ?_⟩
  · exact (c9_cli (fun _ _ => .ok [])).1 "example.com" (by decide)
  · exact (c9_cli (fun _ _ => .ok [])).2.1 "example.com" "8443" 8443 (by decide) (by decide)
  · exact (c9_cli (fun _ _ => .ok [])).2.2.1 ⟨"example.com", 443⟩ [] rfl
  · exact (c9_cli (fun _ _ => .error (.connectionError "connection refused"))).2.2.2
      ⟨"example.com", 443⟩ (.connectionError "connection refused") rfl

/-- Claim C10: `from_auto` fails with a type error both on an unrecognized
runtime shape (such as `None`) and on a plain string from which no PEM block
can be extracted (such as `"x"`); it succeeds on a parsed object, an existing
store, a response carrying a peer certificate, well-formed DER bytes, and a
string containing a PEM block, yielding a store for that certificate. -/
theorem c10_from_auto (ep : List Nat → CertView) :
    (∃ m, CertStore.from_auto ep (AutoInput.pemText "x".data) =
      .error (.typeError m)) ∧
    (∃ m, CertStore.from_auto ep AutoInput.otherObj = .error (.typeError m)) ∧
    (∀ s, find_certs s = [] →
      ∃ m, CertStore.from_auto ep (AutoInput.pemText s) = .error (.typeError m)) ∧
    (∀ x : X509, CertStore.from_auto ep (AutoInput.x509Obj x) = .ok ⟨x⟩) ∧
    (∀ c : CertStore, CertStore.from_auto ep (AutoInput.storeObj c) = .ok c) ∧
    (∀ (r : Response) (x : X509), r.peer_cert = some x →
      CertStore.from_auto ep (AutoInput.responseObj r) = .ok ⟨x⟩) ∧
    (∀ der, wfDer der →
      CertStore.from_auto ep (AutoInput.derBytes der) = .ok ⟨⟨der, ep der⟩⟩) ∧
    (∀ der, (∀ b ∈ der, b < 256) →
      CertStore.from_auto ep (AutoInput.pemText (x509_to_pem_der der)) =
        .ok ⟨⟨der, ep der⟩⟩) := by
  refine ⟨⟨_, rfl⟩, ⟨_, rfl⟩, ?_, fun x => rfl, fun c => rfl, ?_, ?_, ?_⟩
  · intro s h
    simp only [CertStore.from_auto, h, List.isEmpty_nil, if_true]
    exact ⟨_, rfl⟩
  · intro r x h
    simp only [CertStore.from_auto, CertStore.from_response, h]
  · intro der h
    simp only [CertStore.from_auto, der_to_x509_ok ep der h, Except.map]
  · intro der h
    have hne : (find_certs (x509_to_pem_der der)).isEmpty = false := by
      rw [find_certs_pem der]
      rfl
    simp only [CertStore.from_auto, hne, Bool.false_eq_true, if_false,
      pem_roundtrip_core ep der h, Except.map]

/-- Witness for C10 at concrete inputs of every shape. -/
theorem c10_from_auto_witness :
    (∃ m, CertStore.from_auto trivView (AutoInput.pemText "x".data) =
      .error (.typeError m)) ∧
    (∃ m, CertStore.from_auto trivView AutoInput.otherObj = .error (.typeError m)) ∧
    (∃ m, CertStore.from_auto trivView (AutoInput.pemText "no pem here".data) =
      .error (.typeError m)) ∧
    CertStore.from_auto trivView (AutoInput.x509Obj ⟨[1], trivView [1]⟩) =
      .ok ⟨⟨[1], trivView [1]⟩⟩ ∧
    CertStore.from_auto trivView (AutoInput.storeObj ⟨⟨[2], trivView [2]⟩⟩) =
      .ok ⟨⟨[2], trivView [2]⟩⟩ ∧
    CertStore.from_auto trivView
      (AutoInput.responseObj ⟨some ⟨[1], trivView [1]⟩, none⟩) =
      .ok ⟨⟨[1], trivView [1]⟩⟩ ∧
    CertStore.from_auto trivView (AutoInput.derBytes [1, 2, 3]) =
      .ok ⟨⟨[1, 2, 3], trivView [1, 2, 3]⟩⟩ ∧
    CertStore.from_auto trivView (AutoInput.pemText (x509_to_pem_der [1, 2, 3])) =
      .ok ⟨⟨[1, 2, 3], trivView [1, 2, 3]⟩⟩ := by
  have h := c10_from_auto trivView
  exact ⟨h.1, h.2.1, h.2.2.1 "no pem here".data (by decide),
    h.2.2.2.1 ⟨[1], trivView [1]⟩, h.2.2.2.2.1 ⟨⟨[2], trivView [2]⟩⟩,
    h.2.2.2.2.2.1 ⟨some ⟨[1], trivView [1]⟩, none⟩ ⟨[1], trivView [1]⟩ rfl,
    h.2.2.2.2.2.2.1 [1, 2, 3] (by decide),
    h.2.2.2.2.2.2.2 [1, 2, 3] (by decide)⟩
